import Mathlib

/-!
# Verification of the zeek-exporter call-tree timing engine

Shallow embedding of the `ESnet::Zeek_Exporter` plugin (repository
`dopheide-esnet/zeek-exporter`).  The repository ships the class header
`src/Plugin.h`, which fixes the data model: the member fields, their
initializers, and the registration of the Prometheus metric families.
The member-function bodies (`Plugin.cc`) are not part of the sources at
hand, so the behaviour of the hooks is modelled from the design
specification; every such definition carries a doc comment starting
with `Modelled from the spec:`.

Timestamps are integers (microsecond ticks of a steady clock);
durations are integers so that the negative-duration clamp in `pop` is
meaningful.
-/

set_option autoImplicit false

namespace ZeekExporter

/-- A Prometheus label set: an ordered list of (label name, label value)
pairs, as passed to `Family.Add` in the C++ sources. -/
abbrev LabelSet := List (String × String)

/-- A counter/gauge family as a total map from label sets to values.
Counters hold integer microsecond/count values in this model. -/
abbrev Fam := LabelSet → Int

/-- Add `d` to the metric child of family `c` identified by label set `k`
(all other children unchanged). -/
def bump (c : Fam) (k : LabelSet) (d : Int) : Fam :=
  fun l => if l = k then c l + d else c l

/-- The Zeek hook types the plugin deals with.  `HookLogWrite` is timed
with its own timer (`log_hook_start` in `src/Plugin.h`), every other
hook type shares `other_hook_start`. -/
inductive HookType
  | callFunction
  | logWrite
  | queueEvent
  | other
deriving DecidableEq, Repr

/-- From `src/Plugin.h` line 37: `getenv("CLUSTER_NODE") ?
getenv("CLUSTER_NODE") : "standalone"` — the node label value is the
`CLUSTER_NODE` environment variable when set, else `"standalone"`. -/
def node_name (cluster_node : Option String) : String :=
  match cluster_node with
  | some v => v
  | none => "standalone"

/-- Metric kind of a registered family (`BuildCounter` vs `BuildGauge`). -/
inductive MetricKind
  | counter
  | gauge
deriving DecidableEq, Repr

/-- The metric families registered in `src/Plugin.h` lines 86-160, in
declaration order: each entry is (family name, kind, constant labels).
Every family is built with `.Labels({{"node", node_name}})`. -/
def registeredFamilies (cluster_node : Option String) :
    List (String × MetricKind × LabelSet) :=
  [ ("zeek_log_writes_total", MetricKind.counter, [("node", node_name cluster_node)])
  , ("zeek_start_time_seconds", MetricKind.counter, [("node", node_name cluster_node)])
  , ("zeek_function_calls_total", MetricKind.counter, [("node", node_name cluster_node)])
  , ("zeek_cpu_time_per_function_seconds", MetricKind.counter, [("node", node_name cluster_node)])
  , ("zeek_var_size_per_function_bytes", MetricKind.gauge, [("node", node_name cluster_node)])
  , ("zeek_var_size_bytes", MetricKind.gauge, [("node", node_name cluster_node)])
  , ("zeek_absolute_cpu_time_per_function_seconds", MetricKind.counter, [("node", node_name cluster_node)])
  , ("zeek_cpu_time_per_function_type_seconds", MetricKind.counter, [("node", node_name cluster_node)])
  , ("zeek_total_cpu_time_seconds", MetricKind.gauge, [("node", node_name cluster_node)])
  , ("zeek_hook_cpu_time_seconds", MetricKind.counter, [("node", node_name cluster_node)])
  , ("zeek_hooks_total", MetricKind.counter, [("node", node_name cluster_node)]) ]

/-- The counter families mutated by the hook handlers, as maps from the
dynamic label sets to accumulated values. -/
structure Metrics where
  zeek_log_writes_total : Fam
  zeek_function_calls_total : Fam
  zeek_cpu_time_per_function_seconds : Fam
  zeek_cpu_time_per_function_type_seconds : Fam
  zeek_absolute_cpu_time_per_function_seconds : Fam
  zeek_hook_cpu_time_seconds : Fam
  zeek_hooks_total : Fam

/-- All counter families start at zero. -/
def Metrics.init : Metrics :=
  { zeek_log_writes_total := fun _ => 0
  , zeek_function_calls_total := fun _ => 0
  , zeek_cpu_time_per_function_seconds := fun _ => 0
  , zeek_cpu_time_per_function_type_seconds := fun _ => 0
  , zeek_absolute_cpu_time_per_function_seconds := fun _ => 0
  , zeek_hook_cpu_time_seconds := fun _ => 0
  , zeek_hooks_total := fun _ => 0 }

/-- The plugin's mutable state, mirroring the private fields of `class
Plugin` in `src/Plugin.h` lines 39-69, plus a synthetic steady clock
`now` and ghost counters (`pushes`, `pops`, `hook_firings`) that count
events for the counting claims.  Stacks grow at the head. -/
structure EngineState where
  /-- Synthetic steady-clock reading, microsecond ticks. -/
  now : Int
  /-- `size_t func_depth = 0;` — the current function depth. -/
  func_depth : Nat
  /-- `std::vector<const char *> lineage;` — the caller chain, top = immediate caller. -/
  lineage : List String
  /-- `const Func* current_func = nullptr;` — the re-entrancy guard: `none` = Idle. -/
  current_func : Option String
  /-- `bool own_handler = true;` -/
  own_handler : Bool
  /-- `std::chrono::steady_clock::time_point log_hook_start;` -/
  log_hook_start : Int
  /-- `std::chrono::steady_clock::time_point other_hook_start;` -/
  other_hook_start : Int
  /-- `std::stack<std::chrono::steady_clock::time_point> func_hook_starts;` — per-frame start timestamps. -/
  func_hook_starts : List Int
  /-- `std::stack<std::chrono::microseconds> func_durations;` -/
  func_durations : List Int
  /-- `std::vector<double> child_func_durations;` — per-frame accumulated child durations, top = current frame. -/
  child_func_durations : List Int
  /-- The metric families the handlers mutate. -/
  metrics : Metrics
  /-- Ghost: number of CallFrame pushes performed so far. -/
  pushes : Nat
  /-- Ghost: number of CallFrame pops performed so far. -/
  pops : Nat
  /-- Ghost: number of call-dispatch hook firings so far. -/
  hook_firings : Nat

/-- The state at plugin construction: the field initializers of
`src/Plugin.h` (`func_depth = 0`, empty `lineage`, `current_func =
nullptr`, `own_handler = true`, default-constructed (empty) stacks),
with the synthetic clock at 0. -/
def initState : EngineState :=
  { now := 0
  , func_depth := 0
  , lineage := []
  , current_func := none
  , own_handler := true
  , log_hook_start := 0
  , other_hook_start := 0
  , func_hook_starts := []
  , func_durations := []
  , child_func_durations := []
  , metrics := Metrics.init
  , pushes := 0
  , pops := 0
  , hook_firings := 0 }

/-- The re-entrancy guard is Idle iff `current_func` is unset. -/
def isIdle (st : EngineState) : Prop := st.current_func = none

/-- Modelled from the spec (§4.1 `push`, `Plugin.cc` is not in the
sources): record the current timestamp on `func_hook_starts`, open a
fresh accumulated-child-duration slot on `child_func_durations`, push
the function identity onto `lineage`, and increment `func_depth`.
No failure condition. -/
def pushFrame (st : EngineState) (name : String) : EngineState :=
  { st with
    func_hook_starts := st.now :: st.func_hook_starts
  , child_func_durations := 0 :: st.child_func_durations
  , lineage := name :: st.lineage
  , func_depth := st.func_depth + 1
  , pushes := st.pushes + 1 }

/-- Modelled from the spec (§4.1 `pop`, `Plugin.cc` is not in the
sources): pop the top frame and the lineage; return
`(inclusive_duration, absolute_duration)` with `inclusive_duration =
now − frame.start` and `absolute_duration = inclusive_duration −
frame.accumulated_child_duration`, clamped to zero when it would be
negative.  Popping an empty stack is a fatal programming error,
modelled as `none`. -/
def popFrame (st : EngineState) : Option ((Int × Int) × EngineState) :=
  match st.func_hook_starts, st.child_func_durations, st.lineage with
  | start :: restS, child :: restC, _ :: restL =>
      let inclusive := st.now - start
      let absolute := max 0 (inclusive - child)
      some ((inclusive, absolute),
        { st with
          func_hook_starts := restS
        , child_func_durations := restC
        , lineage := restL
        , func_depth := st.func_depth - 1
        , pops := st.pops + 1 })
  | _, _, _ => none

/-- Modelled from the spec (§4.1 `reportChildDuration`, `Plugin.cc` is
not in the sources): add `d` to the accumulated child duration of the
new stack top (the parent frame), called immediately after a child
pop; a no-op when there is no parent frame. -/
def reportChildDuration (st : EngineState) (d : Int) : EngineState :=
  match st.child_func_durations with
  | c :: rest => { st with child_func_durations := (c + d) :: rest }
  | [] => st

/-- Which duration `reportChildDuration` receives at a child pop.  The
spec's §4.3 words say the child's absolute duration; its §8 expected
values for the A→B→C chain require the child's inclusive duration. -/
inductive ReportPolicy
  | absolute
  | inclusive
deriving DecidableEq, Repr

/-- Modelled from the spec (§4.2, `Plugin.cc` is not in the sources):
the re-entrant firing of the call-dispatch hook caused by the engine's
own direct invocation of the intercepted call.  When the firing is for
the function recorded in `current_func`, the engine marks the handler
as its own, releases the guard (so that genuine child calls made by
the function body are intercepted afresh), and signals "not handled";
it never pushes a frame.  A firing for a different function while
intercepting is also passed through unhandled. -/
def hookInnerFire (st : EngineState) (f : String) : Bool × EngineState :=
  let st1 := { st with hook_firings := st.hook_firings + 1 }
  match st1.current_func with
  | some g =>
      if g = f then
        (false, { st1 with own_handler := true, current_func := none })
      else
        (false, st1)
  | none => (false, st1)

mutual
/-- A logical call to be executed under instrumentation: function
identity, function type, clock ticks consumed by the function's own
code before and after its child calls, the child calls, and whether
the call raises an error (after its body) that propagates to the
caller. -/
inductive CallTree
  | node (name ftype : String) (pre : Nat) (children : CallForest)
      (post : Nat) (raisesError : Bool)

/-- A sequence of sibling calls, run left to right. -/
inductive CallForest
  | nil
  | cons (t : CallTree) (ts : CallForest)
end

mutual
/-- The per-call measurements produced by a run: the function identity
with its inclusive and absolute durations, and the measurements of the
child calls that were entered. -/
inductive MeasTree
  | node (name : String) (inclusive absolute : Int) (children : MeasForest)

/-- Measurements of a sequence of sibling calls. -/
inductive MeasForest
  | nil
  | cons (t : MeasTree) (ts : MeasForest)
end

/-- Advance the synthetic steady clock by `d` ticks. -/
def advance (st : EngineState) (d : Nat) : EngineState :=
  { st with now := st.now + d }

/-- Update the call metrics at a frame pop, per spec §4.3: increment
`zeek_function_calls_total{type, name, caller}`; add the inclusive
duration to `zeek_cpu_time_per_function_seconds{type, name, caller}`
and `zeek_cpu_time_per_function_type_seconds{type}`; add the absolute
duration to
`zeek_absolute_cpu_time_per_function_seconds{type, name, caller}`. -/
def recordCall (m : Metrics) (name ftype caller : String)
    (inclusive absolute : Int) : Metrics :=
  let k : LabelSet := [("type", ftype), ("name", name), ("caller", caller)]
  let kt : LabelSet := [("type", ftype)]
  { m with
    zeek_function_calls_total := bump m.zeek_function_calls_total k 1
  , zeek_cpu_time_per_function_seconds :=
      bump m.zeek_cpu_time_per_function_seconds k inclusive
  , zeek_cpu_time_per_function_type_seconds :=
      bump m.zeek_cpu_time_per_function_type_seconds kt inclusive
  , zeek_absolute_cpu_time_per_function_seconds :=
      bump m.zeek_absolute_cpu_time_per_function_seconds k absolute }

/-- Modelled from the spec (§4.2, `Plugin.cc` is not in the sources):
the entry half of an interception.  The dispatch hook fires while the
guard is Idle: the engine counts the firing, transitions to
Intercepting (`current_func := the function`, `own_handler := true`,
signalling "handled" to the plugin manager), pushes a CallFrame, lets
the re-entrant inner hook firing happen (which releases the guard),
and executes the function's own code before its first child call
(`pre` clock ticks). -/
def enterState (st : EngineState) (name : String) (pre : Nat) : EngineState :=
  let st1 := { st with
    hook_firings := st.hook_firings + 1
  , current_func := some name
  , own_handler := true }
  let st2 := pushFrame st1 name
  let st3 := (hookInnerFire st2 name).2
  advance st3 pre

mutual
/-- Modelled from the spec (§4.2 and §2 control flow, `Plugin.cc` is
not in the sources): handling of one logical call whose dispatch hook
fires while the guard is Idle.  The engine intercepts (see
`enterState`), executes the underlying call (its own code, then its
child calls, then — unless a child error propagates — its remaining
own code), then pops the frame and emits the measurement on every
exit path, error or not, before returning to Idle and re-propagating
the error.  The caller label is the lineage top after the pop.
Returns the state, this call's measurement, and whether the call
completed without error. -/
def runCall (policy : ReportPolicy) (st : EngineState) :
    CallTree → EngineState × MeasTree × Bool
  | .node name ftype pre children post raisesError =>
      let (st5, childMeas, childrenOk) :=
        runForest policy (enterState st name pre) children
      let st6 := if childrenOk then advance st5 post else st5
      match popFrame st6 with
      | some ((inclusive, absolute), st7) =>
          let caller := st7.lineage.headD ""
          let st8 := { st7 with
            metrics := recordCall st7.metrics name ftype caller inclusive absolute }
          let reported := match policy with
            | .absolute => absolute
            | .inclusive => inclusive
          let st9 := reportChildDuration st8 reported
          let st10 := { st9 with current_func := none }
          (st10, .node name inclusive absolute childMeas,
            childrenOk && !raisesError)
      | none => (st6, .node name 0 0 childMeas, false)

/-- Modelled from the spec: run sibling calls left to right; an error
propagating out of one call aborts the remaining siblings (the error
continues propagating to the caller). -/
def runForest (policy : ReportPolicy) (st : EngineState) :
    CallForest → EngineState × MeasForest × Bool
  | .nil => (st, .nil, true)
  | .cons t ts =>
      let (st1, m, ok) := runCall policy st t
      if ok then
        let (st2, ms, ok2) := runForest policy st1 ts
        (st2, .cons m ms, ok2)
      else
        (st1, .cons m .nil, false)
end

/-- If `offset` is a valid index into `args`, a one-entry label list
binding `key` to that argument's printable value; otherwise (negative,
including the `-1` "none" marker of `arg_events` in `src/Plugin.h`, or
out of range) the empty list — the label is omitted entirely, not
emitted as an empty string. -/
def extractLabel (args : List String) (key : String) (offset : Int) :
    List (String × String) :=
  if h : 0 ≤ offset ∧ offset.toNat < args.length then
    [(key, args.get ⟨offset.toNat, h.2⟩)]
  else
    []

/-- Modelled from the spec (§4.4, `Plugin.cc` is not in the sources):
look the function name up in the `arg_events` table (`src/Plugin.h`
lines 71-79: name ↦ (arg-slot offset, addl-slot offset), `-1` offsets
not stored); if configured, append an `"arg"` label from the arg-slot
and an `"addl"` label from the addl-slot, each only when its offset is
a valid index; an unconfigured name or invalid offset adds no labels
and is never an error.  Arguments are carried as their printable
values. -/
def AddlArgumentPopulation (arg_events : List (String × Int × Int))
    (name : String) (args : List String) (labels : List (String × String)) :
    List (String × String) :=
  match List.lookup name arg_events with
  | some (argOff, addlOff) =>
      labels ++ extractLabel args "arg" argOff ++ extractLabel args "addl" addlOff
  | none => labels

/-- Whether `zeek_log_writes_total` counts log records or log fields:
the spec (§4.3) leaves this as a configured granularity. -/
inductive Granularity
  | perRecord
  | perField
deriving DecidableEq, Repr

/-- Modelled from the spec (§4.3 log-write path, `Plugin.cc` is not in
the sources): a log-write hook firing increments
`zeek_log_writes_total{writer, filter}` by 1 or by `num_fields`
according to the configured granularity, touches no CallFrame state
(no push/pop, non-recursive single-shot accounting), and accepts the
write. -/
def HookLogWrite (g : Granularity) (st : EngineState)
    (writer filt : String) (num_fields : Nat) : Bool × EngineState :=
  let d : Int := match g with
    | .perRecord => 1
    | .perField => (num_fields : Int)
  (true,
    { st with metrics := { st.metrics with
        zeek_log_writes_total :=
          bump st.metrics.zeek_log_writes_total
            [("writer", writer), ("filter", filt)] d } })

/-- The `hook_type` label value of a hook type. -/
def hookTypeName : HookType → String
  | .callFunction => "HOOK_CALL_FUNCTION"
  | .logWrite => "HOOK_LOG_WRITE"
  | .queueEvent => "HOOK_QUEUE_EVENT"
  | .other => "HOOK_OTHER"

/-- Modelled from the spec (§4.5, `Plugin.cc` is not in the sources):
at hook entry, record the current timestamp in the timer for that hook
kind — `log_hook_start` for log-write hooks, `other_hook_start` for
every other hook type (`src/Plugin.h` lines 54-57: tracked separately
so they do not clobber each other). -/
def MetaHookPre (ht : HookType) (st : EngineState) : EngineState :=
  if ht = HookType.logWrite then
    { st with log_hook_start := st.now }
  else
    { st with other_hook_start := st.now }

/-- Modelled from the spec (§4.5, `Plugin.cc` is not in the sources):
at hook completion, the elapsed time against the matching timer is
added to `zeek_hook_cpu_time_seconds{hook_type}` and
`zeek_hooks_total{hook_type}` is incremented. -/
def MetaHookPost (ht : HookType) (st : EngineState) : EngineState :=
  let start := if ht = HookType.logWrite then st.log_hook_start
    else st.other_hook_start
  let elapsed := st.now - start
  let k : LabelSet := [("hook_type", hookTypeName ht)]
  { st with metrics := { st.metrics with
      zeek_hook_cpu_time_seconds :=
        bump st.metrics.zeek_hook_cpu_time_seconds k elapsed
    , zeek_hooks_total := bump st.metrics.zeek_hooks_total k 1 } }

mutual
/-- Number of calls measured in a measurement tree (= calls entered). -/
def measCount : MeasTree → Nat
  | .node _ _ _ c => 1 + measCountF c

/-- Number of calls measured in a measurement forest. -/
def measCountF : MeasForest → Nat
  | .nil => 0
  | .cons t ts => measCount t + measCountF ts
end

/-- The inclusive duration recorded at the root of a measurement tree. -/
def inclDur : MeasTree → Int
  | .node _ i _ _ => i

/-- The absolute duration recorded at the root of a measurement tree. -/
def absDur : MeasTree → Int
  | .node _ _ a _ => a

/-- Sum of the inclusive durations of the roots of a forest. -/
def sumInclF : MeasForest → Int
  | .nil => 0
  | .cons t ts => inclDur t + sumInclF ts

/-- Sum of the absolute durations of the roots of a forest. -/
def sumAbsF : MeasForest → Int
  | .nil => 0
  | .cons t ts => absDur t + sumAbsF ts

mutual
/-- Flatten a measurement tree to `(name, inclusive, absolute)` rows in
pop order of the engine (parents after their children would be pop
order; here pre-order, children after the root, purely for reading off
results). -/
def measures : MeasTree → List (String × Int × Int)
  | .node n i a c => (n, i, a) :: measuresF c

/-- Flatten a measurement forest. -/
def measuresF : MeasForest → List (String × Int × Int)
  | .nil => []
  | .cons t ts => measures t ++ measuresF ts
end

mutual
/-- The clock-monotonicity invariant over a measurement tree: at every
node, the sum of the children's absolute durations does not exceed the
node's own inclusive duration. -/
def ChildrenBounded : MeasTree → Prop
  | .node _ i _ c => sumAbsF c ≤ i ∧ ChildrenBoundedF c

/-- `ChildrenBounded` at every tree of a forest. -/
def ChildrenBoundedF : MeasForest → Prop
  | .nil => True
  | .cons t ts => ChildrenBounded t ∧ ChildrenBoundedF ts
end

/-- The A→B→C scenario of the spec's §8 example: call C's own code
takes 20 ticks and it has no children, so C's inclusive duration is
20ms. -/
def scenarioC : CallTree := .node "C" "function" 20 .nil 0 false

/-- B spends 30 ticks before calling C and 10 after, so B's inclusive
duration is 30 + 20 + 10 = 60ms. -/
def scenarioB : CallTree := .node "B" "function" 30 (.cons scenarioC .nil) 10 false

/-- A spends 20 ticks before calling B and 20 after, so A's inclusive
duration is 20 + 60 + 20 = 100ms. -/
def scenarioA : CallTree := .node "A" "event" 20 (.cons scenarioB .nil) 20 false

/-- Closed form of `enterState`. -/
theorem enterState_def (st : EngineState) (name : String) (pre : Nat) :
    enterState st name pre = { st with
      now := st.now + pre
    , func_depth := st.func_depth + 1
    , lineage := name :: st.lineage
    , func_hook_starts := st.now :: st.func_hook_starts
    , child_func_durations := 0 :: st.child_func_durations
    , current_func := none
    , own_handler := true
    , pushes := st.pushes + 1
    , hook_firings := st.hook_firings + 2 } := by
  simp [enterState, pushFrame, hookInnerFire, advance]

/-- What a completed run restores: the frame-start stack, lineage, and
depth are as before; the accumulated-child-duration stack has the same
length and tail (only its top value may have absorbed reported child
durations); `n` new pushes are matched by `n` new pops; and the hook
fired twice per entered call. -/
def RunPreserved (st st2 : EngineState) (n : Nat) : Prop :=
  st2.func_hook_starts = st.func_hook_starts ∧
  st2.lineage = st.lineage ∧
  st2.func_depth = st.func_depth ∧
  st2.child_func_durations.length = st.child_func_durations.length ∧
  st2.child_func_durations.tail = st.child_func_durations.tail ∧
  st2.pushes = st.pushes + n ∧
  st2.pops = st.pops + n ∧
  st2.hook_firings = st.hook_firings + 2 * n

theorem RunPreserved.refl (st : EngineState) : RunPreserved st st 0 :=
  ⟨rfl, rfl, rfl, rfl, rfl, rfl, rfl, rfl⟩

theorem RunPreserved.comp {st st1 st2 : EngineState} {n1 n2 : Nat}
    (h1 : RunPreserved st st1 n1) (h2 : RunPreserved st1 st2 n2) :
    RunPreserved st st2 (n1 + n2) := by
  obtain ⟨a1, b1, c1, d1, e1, f1, g1, k1⟩ := h1
  obtain ⟨a2, b2, c2, d2, e2, f2, g2, k2⟩ := h2
  exact ⟨a2.trans a1, b2.trans b1, c2.trans c1, d2.trans d1, e2.trans e1,
    by omega, by omega, by omega⟩

theorem RunPreserved.congr_n {st st2 : EngineState} {n n2 : Nat}
    (h : RunPreserved st st2 n) (hn : n = n2) : RunPreserved st st2 n2 :=
  hn ▸ h

mutual
/-- Frame-stack discipline of a single intercepted call: the stacks,
lineage and depth are restored, the pushes it performs (one per
entered call) are matched one-for-one by pops, each call fires the
hook exactly twice, and the guard is Idle afterwards. -/
theorem runCall_shape (policy : ReportPolicy) (st : EngineState) (t : CallTree) :
    RunPreserved st (runCall policy st t).1 (measCount (runCall policy st t).2.1) ∧
    (runCall policy st t).1.current_func = none := by
  cases t with
  | node name ftype pre children post err =>
    have hF := runForest_shape policy (enterState st name pre) children
    rcases hE : runForest policy (enterState st name pre) children with ⟨st5, cm, ok⟩
    rw [hE] at hF
    simp only [RunPreserved, enterState_def] at hF
    obtain ⟨hS, hL, hD, hCl, hCt, hPu, hPo, hHf⟩ := hF
    obtain ⟨c5, rest5, hC5⟩ : ∃ c5 rest5, st5.child_func_durations = c5 :: rest5 := by
      cases h5 : st5.child_func_durations with
      | nil => rw [h5] at hCl; simp at hCl
      | cons a b => exact ⟨a, b, rfl⟩
    have hrest : rest5 = st.child_func_durations := by
      rw [hC5] at hCt; simpa using hCt
    subst hrest
    simp only [runCall, hE]
    rcases ok with _ | _ <;>
      [skip; skip] <;>
      cases hcd : st.child_func_durations <;>
      simp only [Bool.false_eq_true, if_false, if_true, advance, popFrame, hS, hL, hC5,
        reportChildDuration, recordCall, RunPreserved, measCount, hcd] <;>
      refine ⟨⟨?_, ?_, ?_, ?_, ?_, ?_, ?_, ?_⟩, ?_⟩ <;>
      first
        | rfl
        | omega
        | simp

/-- Frame-stack discipline of a sequence of sibling calls. -/
theorem runForest_shape (policy : ReportPolicy) (st : EngineState) (ts : CallForest) :
    RunPreserved st (runForest policy st ts).1
      (measCountF (runForest policy st ts).2.1) := by
  cases ts with
  | nil =>
      simp only [runForest, measCountF]
      exact RunPreserved.refl st
  | cons t ts2 =>
      have h1 := (runCall_shape policy st t).1
      rcases hE : runCall policy st t with ⟨st1, m, ok⟩
      rw [hE] at h1
      rcases ok with _ | _
      · simp only [runForest, hE, Bool.false_eq_true, if_false]
        exact h1.congr_n (by simp [measCountF])
      · have h2 := runForest_shape policy st1 ts2
        rcases hE2 : runForest policy st1 ts2 with ⟨st2, ms, ok2⟩
        rw [hE2] at h2
        simp only [runForest, hE, hE2, if_true, measCountF]
        exact h1.comp h2
end

/-- The duration `reportChildDuration` receives for a measured child
under a given policy. -/
def reportedDur (policy : ReportPolicy) (m : MeasTree) : Int :=
  match policy with
  | .absolute => absDur m
  | .inclusive => inclDur m

/-- Sum of the reported durations of the roots of a forest. -/
def sumReportedF (policy : ReportPolicy) : MeasForest → Int
  | .nil => 0
  | .cons t ts => reportedDur policy t + sumReportedF policy ts

/-- Pointwise sanity of the measurements of a forest: every root has
`0 ≤ absolute ≤ inclusive` and satisfies the clock-monotonicity
invariant. -/
def WellBoundedF : MeasForest → Prop
  | .nil => True
  | .cons t ts =>
      (0 ≤ absDur t ∧ absDur t ≤ inclDur t ∧ ChildrenBounded t) ∧ WellBoundedF ts

theorem sumAbsF_le_sumInclF : ∀ ms : MeasForest, WellBoundedF ms →
    sumAbsF ms ≤ sumInclF ms
  | .nil, _ => le_refl 0
  | .cons t ts, ⟨⟨_, h1, _⟩, hts⟩ => by
      have h2 := sumAbsF_le_sumInclF ts hts
      simp only [sumAbsF, sumInclF]
      omega

theorem sumInclF_nonneg : ∀ ms : MeasForest, WellBoundedF ms → 0 ≤ sumInclF ms
  | .nil, _ => le_refl 0
  | .cons t ts, ⟨⟨h0, h1, _⟩, hts⟩ => by
      have h2 := sumInclF_nonneg ts hts
      simp only [sumInclF]
      omega

theorem sumReportedF_nonneg (policy : ReportPolicy) :
    ∀ ms : MeasForest, WellBoundedF ms → 0 ≤ sumReportedF policy ms
  | .nil, _ => le_refl 0
  | .cons t ts, ⟨⟨h0, h1, _⟩, hts⟩ => by
      have h2 := sumReportedF_nonneg policy ts hts
      have h3 : 0 ≤ reportedDur policy t := by
        cases policy <;> simp only [reportedDur] <;> omega
      simp only [sumReportedF]
      omega

theorem childrenBoundedF_of_wellBoundedF : ∀ ms : MeasForest, WellBoundedF ms →
    ChildrenBoundedF ms
  | .nil, _ => trivial
  | .cons _t ts, ⟨⟨_, _, hcb⟩, hts⟩ =>
      ⟨hcb, childrenBoundedF_of_wellBoundedF ts hts⟩

theorem reportChildDuration_now (st : EngineState) (d : Int) :
    (reportChildDuration st d).now = st.now := by
  cases h : st.child_func_durations <;> simp [reportChildDuration, h]

mutual
/-- Duration accounting of a single intercepted call: the recorded
inclusive duration is exactly the clock time the call consumed, the
absolute duration lies between 0 and the inclusive duration, the
clock-monotonicity invariant holds throughout the measurement tree,
and the parent's accumulated-child-duration slot absorbs exactly the
reported duration. -/
theorem runCall_bounds (policy : ReportPolicy) (st : EngineState) (t : CallTree) :
    inclDur (runCall policy st t).2.1 = (runCall policy st t).1.now - st.now ∧
    0 ≤ absDur (runCall policy st t).2.1 ∧
    absDur (runCall policy st t).2.1 ≤ inclDur (runCall policy st t).2.1 ∧
    ChildrenBounded (runCall policy st t).2.1 ∧
    ∀ c rest, st.child_func_durations = c :: rest →
      (runCall policy st t).1.child_func_durations =
        (c + reportedDur policy (runCall policy st t).2.1) :: rest := by
  cases t with
  | node name ftype pre children post err =>
    have hFs := runForest_shape policy (enterState st name pre) children
    have hFb := runForest_bounds policy (enterState st name pre) children
    rcases hE : runForest policy (enterState st name pre) children with ⟨st5, cm, ok⟩
    rw [hE] at hFs hFb
    simp only [RunPreserved, enterState_def] at hFs
    obtain ⟨hS, hL, _, _, _, _, _, _⟩ := hFs
    obtain ⟨hIncl, hWB, hHead⟩ := hFb
    have hHead5 : st5.child_func_durations =
        (0 + sumReportedF policy cm) :: st.child_func_durations := by
      apply hHead
      simp [enterState_def]
    simp only [enterState_def] at hIncl
    have hRepNN := sumReportedF_nonneg policy cm hWB
    have hInclNN := sumInclF_nonneg cm hWB
    have hAbsIncl := sumAbsF_le_sumInclF cm hWB
    have hCBF := childrenBoundedF_of_wellBoundedF cm hWB
    simp only [runCall, hE]
    rcases ok with _ | _
    · simp only [Bool.false_eq_true, if_false, popFrame, hS, hL, hHead5]
      refine ⟨?_, ?_, ?_, ?_, ?_⟩
      · simp only [inclDur, reportChildDuration_now]
      · simp only [absDur]
        exact le_max_left 0 _
      · simp only [absDur, inclDur]
        rw [max_le_iff]
        constructor <;> omega
      · simp only [ChildrenBounded]
        exact ⟨by omega, hCBF⟩
      · intro c rest hc
        simp only [reportChildDuration, hc, reportedDur, absDur, inclDur]
    · simp only [if_true, advance, popFrame, hS, hL, hHead5]
      refine ⟨?_, ?_, ?_, ?_, ?_⟩
      · simp only [inclDur, reportChildDuration_now]
      · simp only [absDur]
        exact le_max_left 0 _
      · simp only [absDur, inclDur]
        rw [max_le_iff]
        constructor <;> omega
      · simp only [ChildrenBounded]
        exact ⟨by omega, hCBF⟩
      · intro c rest hc
        simp only [reportChildDuration, hc, reportedDur, absDur, inclDur]

/-- Duration accounting of a sequence of sibling calls. -/
theorem runForest_bounds (policy : ReportPolicy) (st : EngineState) (ts : CallForest) :
    sumInclF (runForest policy st ts).2.1 = (runForest policy st ts).1.now - st.now ∧
    WellBoundedF (runForest policy st ts).2.1 ∧
    ∀ c rest, st.child_func_durations = c :: rest →
      (runForest policy st ts).1.child_func_durations =
        (c + sumReportedF policy (runForest policy st ts).2.1) :: rest := by
  cases ts with
  | nil =>
      refine ⟨by simp [runForest, sumInclF], trivial, ?_⟩
      intro c rest hc
      simp [runForest, sumReportedF, hc]
  | cons t ts2 =>
      have h1 := runCall_bounds policy st t
      rcases hE : runCall policy st t with ⟨st1, m, ok⟩
      rw [hE] at h1
      simp only at h1
      obtain ⟨hI1, hA0, hAI, hCB, hHd1⟩ := h1
      rcases ok with _ | _
      · simp only [runForest, hE, Bool.false_eq_true, if_false]
        refine ⟨?_, ⟨⟨hA0, hAI, hCB⟩, trivial⟩, ?_⟩
        · simp only [sumInclF]
          omega
        · intro c rest hc
          have := hHd1 c rest hc
          simp only [sumReportedF]
          rw [this]
          congr 1
          omega
      · have h2 := runForest_bounds policy st1 ts2
        rcases hE2 : runForest policy st1 ts2 with ⟨st2, ms, ok2⟩
        rw [hE2] at h2
        simp only at h2
        obtain ⟨hI2, hWB2, hHd2⟩ := h2
        simp only [runForest, hE, hE2, if_true]
        refine ⟨?_, ⟨⟨hA0, hAI, hCB⟩, hWB2⟩, ?_⟩
        · simp only [sumInclF]
          omega
        · intro c rest hc
          have hs1 := hHd1 c rest hc
          have hs2 := hHd2 (c + reportedDur policy m) rest hs1
          rw [hs2]
          simp only [sumReportedF]
          congr 1
          omega
end

/-- C10: at plugin construction, before any hook has fired, the engine
is in its base state: `func_depth` is 0, the lineage vector is empty,
`current_func` is null (the re-entrancy guard is Idle), `own_handler`
defaults to `true` even though no interception is in progress, and the
`func_hook_starts` and `func_durations` stacks are empty — exactly the
member initializers of `src/Plugin.h`. -/
theorem C10_construction_base_state :
    initState.func_depth = 0 ∧
    initState.lineage = [] ∧
    initState.current_func = none ∧
    isIdle initState ∧
    initState.own_handler = true ∧
    initState.func_hook_starts = [] ∧
    initState.func_durations = [] :=
  ⟨rfl, rfl, rfl, rfl, rfl, rfl, rfl⟩

/-- C9 counterexample: `src/Plugin.h` registers 8 counter families
(`zeek_log_writes_total`, `zeek_start_time_seconds`,
`zeek_function_calls_total`, `zeek_cpu_time_per_function_seconds`,
`zeek_absolute_cpu_time_per_function_seconds`,
`zeek_cpu_time_per_function_type_seconds`,
`zeek_hook_cpu_time_seconds`, `zeek_hooks_total`), not the 6 the
claim states. -/
theorem C9_counterexample :
    (registeredFamilies none).countP
      (fun fam => decide (fam.2.1 = MetricKind.counter)) = 8 ∧
    ¬ ((registeredFamilies none).countP
      (fun fam => decide (fam.2.1 = MetricKind.counter)) = 6) := by
  decide

/-- C9 (amended): if the `CLUSTER_NODE` environment value is absent,
every one of the registered metric families — 8 counter families and
3 gauge families — carries the constant label `node="standalone"`. -/
theorem C9_node_label_standalone :
    (∀ fam ∈ registeredFamilies none, fam.2.2 = [("node", "standalone")]) ∧
    node_name none = "standalone" ∧
    (registeredFamilies none).countP
      (fun fam => decide (fam.2.1 = MetricKind.counter)) = 8 ∧
    (registeredFamilies none).countP
      (fun fam => decide (fam.2.1 = MetricKind.gauge)) = 3 ∧
    (registeredFamilies none).length = 11 := by
  decide

/-- C1: popping a CallFrame pushed at start time `t` with accumulated
child duration `c` returns the pair
`(inclusive_duration, absolute_duration)` with
`inclusive_duration = now − t` and
`absolute_duration = inclusive_duration − c` clamped to zero when it
would be negative; the absolute duration is never negative and the
clamped pop still succeeds (the clamp never propagates as an
error). -/
theorem C1_pop_clamps_absolute (st : EngineState) (t c : Int)
    (restS restC : List Int) (nm : String) (restL : List String)
    (hS : st.func_hook_starts = t :: restS)
    (hC : st.child_func_durations = c :: restC)
    (hL : st.lineage = nm :: restL) :
    ∃ st2, popFrame st = some ((st.now - t, max 0 (st.now - t - c)), st2) ∧
      0 ≤ max 0 (st.now - t - c) ∧
      (st.now - t - c < 0 → max 0 (st.now - t - c) = 0) ∧
      (0 ≤ st.now - t - c → max 0 (st.now - t - c) = st.now - t - c) := by
  simp only [popFrame, hS, hC, hL]
  exact ⟨_, rfl, le_max_left 0 _,
    fun h => max_eq_left (by omega), fun h => max_eq_right h⟩

/-- C1 witness: a pop whose inclusive duration is 10 but whose frame
accumulated 15 of child duration clamps the absolute duration to 0. -/
theorem C1_pop_clamps_absolute_witness :
    ∃ st2, popFrame { initState with now := 10, func_hook_starts := [0], child_func_durations := [15], lineage := ["f"] } =
      some (((10 : Int) - 0, max 0 ((10 : Int) - 0 - 15)), st2) ∧
      0 ≤ max 0 ((10 : Int) - 0 - 15) ∧
      ((10 : Int) - 0 - 15 < 0 → max 0 ((10 : Int) - 0 - 15) = 0) ∧
      (0 ≤ (10 : Int) - 0 - 15 → max 0 ((10 : Int) - 0 - 15) = (10 : Int) - 0 - 15) :=
  C1_pop_clamps_absolute _ 0 15 [] [] "f" [] rfl rfl rfl

/-- C2: for every call tree — including calls that raise or propagate
errors — run from the base state, every pushed CallFrame is popped
exactly once and measured (pushes = pops = number of measured calls),
and the CallFrame stack depth and the lineage stack return to
zero/empty after the outermost call completes. -/
theorem C2_push_pop_balance (policy : ReportPolicy) (t : CallTree) :
    (runCall policy initState t).1.func_depth = 0 ∧
    (runCall policy initState t).1.lineage = [] ∧
    (runCall policy initState t).1.func_hook_starts = [] ∧
    (runCall policy initState t).1.pushes =
      measCount (runCall policy initState t).2.1 ∧
    (runCall policy initState t).1.pops =
      measCount (runCall policy initState t).2.1 := by
  have h := (runCall_shape policy initState t).1
  simp only [RunPreserved] at h
  obtain ⟨hS, hL, hD, _, _, hPu, hPo, _⟩ := h
  refine ⟨?_, ?_, ?_, ?_, ?_⟩
  · rw [hD]; rfl
  · rw [hL]; rfl
  · rw [hS]; rfl
  · rw [hPu]
    simp [initState]
  · rw [hPo]
    simp [initState]

/-- C3: a call-dispatch hook firing while the guard is Intercepting
the same function signals "not handled" and pushes no second frame,
so across any execution the number of CallFrame pushes equals the
number of logical calls — half the number of hook firings, never
equal to it. -/
theorem C3_reentrant_no_second_frame (st : EngineState) (f : String)
    (h : st.current_func = some f) :
    ((hookInnerFire st f).1 = false ∧
     (hookInnerFire st f).2.func_hook_starts = st.func_hook_starts ∧
     (hookInnerFire st f).2.func_depth = st.func_depth ∧
     (hookInnerFire st f).2.lineage = st.lineage ∧
     (hookInnerFire st f).2.pushes = st.pushes) ∧
    ∀ (policy : ReportPolicy) (t : CallTree),
      (runCall policy initState t).1.pushes =
        measCount (runCall policy initState t).2.1 ∧
      (runCall policy initState t).1.hook_firings =
        2 * measCount (runCall policy initState t).2.1 ∧
      (runCall policy initState t).1.pushes ≠
        (runCall policy initState t).1.hook_firings := by
  constructor
  · simp [hookInnerFire, h]
  · intro policy t
    have hs := (runCall_shape policy initState t).1
    simp only [RunPreserved] at hs
    obtain ⟨_, _, _, _, _, hPu, _, hHf⟩ := hs
    have hn : 1 ≤ measCount (runCall policy initState t).2.1 := by
      cases hm : (runCall policy initState t).2.1 with
      | node nm i a c => simp only [measCount]; omega
    have h0 : initState.pushes = 0 := rfl
    have h1 : initState.hook_firings = 0 := rfl
    rw [h0, Nat.zero_add] at hPu
    rw [h1, Nat.zero_add] at hHf
    exact ⟨hPu, hHf, by omega⟩

/-- C3 witness: the guard behaviour at a state intercepting `"f"`, and
the push/firing counts on the concrete A→B→C run. -/
theorem C3_reentrant_no_second_frame_witness :
    (hookInnerFire { initState with current_func := some "f" } "f").1 = false ∧
    (hookInnerFire { initState with current_func := some "f" } "f").2.pushes =
      ({ initState with current_func := some "f" } : EngineState).pushes ∧
    (runCall ReportPolicy.absolute initState scenarioA).1.pushes =
      measCount (runCall ReportPolicy.absolute initState scenarioA).2.1 ∧
    (runCall ReportPolicy.absolute initState scenarioA).1.hook_firings =
      2 * measCount (runCall ReportPolicy.absolute initState scenarioA).2.1 :=
  ⟨(C3_reentrant_no_second_frame _ "f" rfl).1.1,
   (C3_reentrant_no_second_frame _ "f" rfl).1.2.2.2.2,
   ((C3_reentrant_no_second_frame { initState with current_func := some "f" }
      "f" rfl).2 ReportPolicy.absolute scenarioA).1,
   ((C3_reentrant_no_second_frame { initState with current_func := some "f" }
      "f" rfl).2 ReportPolicy.absolute scenarioA).2.1⟩

/-- C5: for every nested call tree, run from any state and under
either reporting policy, at every node of the resulting measurement
tree the sum of the children's absolute durations never exceeds the
node's own inclusive duration. -/
theorem C5_children_absolute_bounded (policy : ReportPolicy)
    (st : EngineState) (t : CallTree) :
    ChildrenBounded (runCall policy st t).2.1 :=
  (runCall_bounds policy st t).2.2.2.1

/-- C4 counterexample: with `reportChildDuration` receiving the
child's absolute duration — the mechanism the claim states — the
A→B→C chain with inclusive durations 100/60/20 yields
absolute(A) = 100 − absolute(B) = 60, not the claimed 40: C's 20 are
subtracted from B's report and therefore never subtracted from A. -/
theorem C4_counterexample :
    measures (runCall ReportPolicy.absolute initState scenarioA).2.1 =
      [("A", 100, 60), ("B", 60, 40), ("C", 20, 20)] ∧
    ¬ (measures (runCall ReportPolicy.absolute initState scenarioA).2.1 =
      [("A", 100, 40), ("B", 60, 40), ("C", 20, 20)]) := by
  decide

/-- C4 (amended): with `reportChildDuration` receiving the child's
*inclusive* duration at each child pop, the A→B→C chain with measured
inclusive durations 100/60/20 yields absolute(C) = 20,
absolute(B) = 40 and absolute(A) = 40, as the spec's expected values
require. -/
theorem C4_absolute_durations_chain :
    measures (runCall ReportPolicy.inclusive initState scenarioA).2.1 =
      [("A", 100, 40), ("B", 60, 40), ("C", 20, 20)] := by
  decide

/-- Fire a sequence of log writes: each entry is (writer, filter,
num_fields). -/
def fireLogWrites (g : Granularity) (st : EngineState)
    (ws : List (String × String × Nat)) : EngineState :=
  ws.foldl (fun s w => (HookLogWrite g s w.1 w.2.1 w.2.2).2) st

/-- C6: each log-write hook firing increments
`zeek_log_writes_total{writer, filter}` by 1 or by `num_fields`
according to the configured granularity, so five firings for writer
"ssl" and filter "default" increment that child by exactly 5
(respectively by the total field count), and log-write accounting
never pushes or pops a CallFrame. -/
theorem C6_log_write_accounting (g : Granularity) (st : EngineState)
    (n1 n2 n3 n4 n5 : Nat) :
    (fireLogWrites g st [("ssl", "default", n1), ("ssl", "default", n2),
        ("ssl", "default", n3), ("ssl", "default", n4), ("ssl", "default", n5)]
      ).metrics.zeek_log_writes_total [("writer", "ssl"), ("filter", "default")] =
      st.metrics.zeek_log_writes_total [("writer", "ssl"), ("filter", "default")] +
        (match g with
          | .perRecord => (5 : Int)
          | .perField => ((n1 : Int) + n2 + n3 + n4 + n5)) ∧
    (fireLogWrites g st [("ssl", "default", n1), ("ssl", "default", n2),
        ("ssl", "default", n3), ("ssl", "default", n4), ("ssl", "default", n5)]
      ).func_hook_starts = st.func_hook_starts ∧
    (fireLogWrites g st [("ssl", "default", n1), ("ssl", "default", n2),
        ("ssl", "default", n3), ("ssl", "default", n4), ("ssl", "default", n5)]
      ).func_depth = st.func_depth ∧
    (fireLogWrites g st [("ssl", "default", n1), ("ssl", "default", n2),
        ("ssl", "default", n3), ("ssl", "default", n4), ("ssl", "default", n5)]
      ).lineage = st.lineage ∧
    (fireLogWrites g st [("ssl", "default", n1), ("ssl", "default", n2),
        ("ssl", "default", n3), ("ssl", "default", n4), ("ssl", "default", n5)]
      ).child_func_durations = st.child_func_durations ∧
    (fireLogWrites g st [("ssl", "default", n1), ("ssl", "default", n2),
        ("ssl", "default", n3), ("ssl", "default", n4), ("ssl", "default", n5)]
      ).pushes = st.pushes ∧
    (fireLogWrites g st [("ssl", "default", n1), ("ssl", "default", n2),
        ("ssl", "default", n3), ("ssl", "default", n4), ("ssl", "default", n5)]
      ).pops = st.pops := by
  cases g <;>
    refine ⟨?_, ?_, ?_, ?_, ?_, ?_, ?_⟩ <;>
    simp [fireLogWrites, HookLogWrite, bump] <;>
    ring

theorem extractLabel_pos {args : List String} {key : String} {offset : Int}
    (h : 0 ≤ offset ∧ offset.toNat < args.length) :
    extractLabel args key offset = [(key, args.get ⟨offset.toNat, h.2⟩)] := by
  simp only [extractLabel]
  rw [dif_pos h]

theorem extractLabel_neg {args : List String} {key : String} {offset : Int}
    (h : ¬(0 ≤ offset ∧ offset.toNat < args.length)) :
    extractLabel args key offset = [] := by
  simp only [extractLabel]
  rw [dif_neg h]

/-- C7: the argument extractor is a total function; a configured name
with a valid offset contributes that argument's printable value as the
"arg" (resp. "addl") label; a `-1` offset contributes no label at all;
an unconfigured name or out-of-range offsets contribute no additional
labels (and, being a total function, never a hard error); and offsets
(arg = 1, addl = -1) on args [x, y, z] yield arg-label "y" and no
addl-label. -/
theorem C7_argument_extractor (ev : List (String × Int × Int))
    (name : String) (args : List String) (labels : List (String × String)) :
    (List.lookup name ev = none →
      AddlArgumentPopulation ev name args labels = labels) ∧
    (∀ a d, List.lookup name ev = some (a, d) →
      ∀ (_h1 : 0 ≤ a) (h2 : a.toNat < args.length),
      ("arg", args.get ⟨a.toNat, h2⟩) ∈ AddlArgumentPopulation ev name args labels) ∧
    (∀ a d, List.lookup name ev = some (a, d) →
      ∀ (_h1 : 0 ≤ d) (h2 : d.toNat < args.length),
      ("addl", args.get ⟨d.toNat, h2⟩) ∈ AddlArgumentPopulation ev name args labels) ∧
    (∀ a d v, List.lookup name ev = some (a, d) → a = -1 →
      ("arg", v) ∈ AddlArgumentPopulation ev name args labels →
      ("arg", v) ∈ labels) ∧
    (∀ a d v, List.lookup name ev = some (a, d) → d = -1 →
      ("addl", v) ∈ AddlArgumentPopulation ev name args labels →
      ("addl", v) ∈ labels) ∧
    (∀ a d, List.lookup name ev = some (a, d) →
      (args.length : Int) ≤ a → (args.length : Int) ≤ d →
      AddlArgumentPopulation ev name args labels = labels) ∧
    AddlArgumentPopulation [("e", 1, -1)] "e" ["x", "y", "z"] [] = [("arg", "y")] := by
  refine ⟨?_, ?_, ?_, ?_, ?_, ?_, by decide⟩
  · intro h
    simp [AddlArgumentPopulation, h]
  · intro a d hl h1 h2
    simp only [AddlArgumentPopulation, hl]
    rw [extractLabel_pos ⟨h1, h2⟩]
    simp
  · intro a d hl h1 h2
    simp only [AddlArgumentPopulation, hl]
    rw [extractLabel_pos ⟨h1, h2⟩]
    simp
  · intro a d v hl ha hm
    subst ha
    simp only [AddlArgumentPopulation, hl] at hm
    have hnegA : extractLabel args "arg" (-1 : Int) = [] := extractLabel_neg (by omega)
    rw [hnegA] at hm
    by_cases hd : 0 ≤ d ∧ d.toNat < args.length
    · rw [extractLabel_pos hd] at hm
      simp only [List.append_nil, List.nil_append, List.mem_append,
        List.mem_singleton] at hm
      rcases hm with hm | hm
      · exact hm
      · simp only [Prod.mk.injEq] at hm
        exact absurd hm.1 (by decide)
    · have hnegD : extractLabel args "addl" d = [] := extractLabel_neg hd
      rw [hnegD] at hm
      simpa using hm
  · intro a d v hl hd hm
    subst hd
    simp only [AddlArgumentPopulation, hl] at hm
    have hnegD : extractLabel args "addl" (-1 : Int) = [] := extractLabel_neg (by omega)
    rw [hnegD] at hm
    by_cases ha : 0 ≤ a ∧ a.toNat < args.length
    · rw [extractLabel_pos ha] at hm
      simp only [List.append_nil, List.nil_append, List.mem_append,
        List.mem_singleton] at hm
      rcases hm with hm | hm
      · exact hm
      · simp only [Prod.mk.injEq] at hm
        exact absurd hm.1 (by decide)
    · have hnegA : extractLabel args "arg" a = [] := extractLabel_neg ha
      rw [hnegA] at hm
      simpa using hm
  · intro a d hl ha hd
    simp only [AddlArgumentPopulation, hl]
    have hnegA : extractLabel args "arg" a = [] := extractLabel_neg (by omega)
    have hnegD : extractLabel args "addl" d = [] := extractLabel_neg (by omega)
    rw [hnegA, hnegD]
    simp

/-- C7 witness: an unconfigured name leaves the labels untouched, and
the spec's concrete example — offsets (arg = 1, addl = -1) on args
[x, y, z] — yields the arg-label "y". -/
theorem C7_argument_extractor_witness :
    AddlArgumentPopulation [("e", 1, -1)] "q" ["x"] [("k", "v")] = [("k", "v")] ∧
    ("arg", (["x", "y", "z"] : List String).get ⟨(1 : Int).toNat, by decide⟩) ∈
      AddlArgumentPopulation [("e", 1, -1)] "e" ["x", "y", "z"] [] :=
  ⟨(C7_argument_extractor [("e", 1, -1)] "q" ["x"] [("k", "v")]).1 (by decide),
   ((C7_argument_extractor [("e", 1, -1)] "e" ["x", "y", "z"] []).2.1
      1 (-1) (by decide) (by decide) (by decide))⟩

/-- C8: log-write hooks are timed with a timer separate from every
other hook type, so starting a log-write timer leaves the other
timer's start timestamp unchanged and vice versa; on completion of a
hook its elapsed time is added to
`zeek_hook_cpu_time_seconds{hook_type}` and
`zeek_hooks_total{hook_type}` is incremented; and a log-write hook
firing nested inside another timed hook leaves the outer hook's
measured elapsed time intact (and is itself measured correctly). -/
theorem C8_separate_hook_timers (st : EngineState) (ht : HookType)
    (h : ht ≠ HookType.logWrite) :
    (MetaHookPre HookType.logWrite st).other_hook_start = st.other_hook_start ∧
    (MetaHookPre ht st).log_hook_start = st.log_hook_start ∧
    (MetaHookPost ht st).metrics.zeek_hook_cpu_time_seconds
        [("hook_type", hookTypeName ht)] =
      st.metrics.zeek_hook_cpu_time_seconds [("hook_type", hookTypeName ht)] +
        (st.now - st.other_hook_start) ∧
    (MetaHookPost ht st).metrics.zeek_hooks_total
        [("hook_type", hookTypeName ht)] =
      st.metrics.zeek_hooks_total [("hook_type", hookTypeName ht)] + 1 ∧
    ∀ d1 d2 d3 : Nat,
      (MetaHookPost ht
          (advance (MetaHookPost HookType.logWrite
            (advance (MetaHookPre HookType.logWrite
              (advance (MetaHookPre ht st) d1)) d2)) d3)
        ).metrics.zeek_hook_cpu_time_seconds [("hook_type", hookTypeName ht)] =
        st.metrics.zeek_hook_cpu_time_seconds [("hook_type", hookTypeName ht)] +
          (d1 + d2 + d3) ∧
      (MetaHookPost HookType.logWrite
          (advance (MetaHookPre HookType.logWrite
            (advance (MetaHookPre ht st) d1)) d2)
        ).metrics.zeek_hook_cpu_time_seconds [("hook_type", "HOOK_LOG_WRITE")] =
        st.metrics.zeek_hook_cpu_time_seconds [("hook_type", "HOOK_LOG_WRITE")] +
          d2 := by
  cases ht with
  | logWrite => exact absurd rfl h
  | callFunction =>
      refine ⟨rfl, rfl, ?_, ?_, ?_⟩ <;>
        simp [MetaHookPre, MetaHookPost, advance, bump, hookTypeName] <;>
        omega
  | queueEvent =>
      refine ⟨rfl, rfl, ?_, ?_, ?_⟩ <;>
        simp [MetaHookPre, MetaHookPost, advance, bump, hookTypeName] <;>
        omega
  | other =>
      refine ⟨rfl, rfl, ?_, ?_, ?_⟩ <;>
        simp [MetaHookPre, MetaHookPost, advance, bump, hookTypeName] <;>
        omega

/-- C8 witness: the separate-timer behaviour at the base state for the
call-dispatch hook type. -/
theorem C8_separate_hook_timers_witness :
    (MetaHookPre HookType.logWrite initState).other_hook_start =
      initState.other_hook_start ∧
    (MetaHookPre HookType.callFunction initState).log_hook_start =
      initState.log_hook_start ∧
    (MetaHookPost HookType.callFunction initState).metrics.zeek_hooks_total
        [("hook_type", hookTypeName HookType.callFunction)] =
      initState.metrics.zeek_hooks_total
        [("hook_type", hookTypeName HookType.callFunction)] + 1 :=
  ⟨(C8_separate_hook_timers initState HookType.callFunction (by decide)).1,
   (C8_separate_hook_timers initState HookType.callFunction (by decide)).2.1,
   (C8_separate_hook_timers initState HookType.callFunction (by decide)).2.2.2.1⟩

end ZeekExporter
